import Mathlib

/-!
Shallow embedding of the virtual-address-space module
(`src/address_space.rs` of the cs393 vm project) together with proofs
about its behaviour.

Modelling conventions:
* `usize` is modelled by `Nat`.  The one place where unsigned wrap-around
  matters for the properties below is the subtraction
  `mapping.addr - addr_iter` inside `add_mapping`: on underflow a Rust
  debug build panics, which we model by the whole operation returning
  `none`.  All other arithmetic in the module stays far below `2 ^ 64`
  for the inputs considered here, so it is modelled exactly.
* `Arc<dyn DataSource>` is modelled by a `Nat` identity: cloning an `Arc`
  yields a handle to the same instance, i.e. the same identifier.
* `todo!()` (reached by `get_source_for_addr` whenever it does not return
  `Ok`) is a panic and is likewise modelled by `none`.
* Rust's `Vec::sort_by` is a stable sort; `List.insertionSort` is also
  stable, and any two stable sorts with the same comparator produce the
  same list, so `sortByAddr` below is an exact model of
  `sort_by(|a, b| a.addr.cmp(&b.addr))`.
* Methods taking `&mut self` are modelled as functions from the receiver
  state to (new state, result).  The Rust methods mutate the receiver
  only on their success paths, which the embedding mirrors literally.
-/

/-- PAGE_SIZE constant from the source: 4096 bytes. -/
def PAGE_SIZE : Nat := 4096

/-- VADDR_MAX constant from the source: `(1 << 38) - 1`. -/
def VADDR_MAX : Nat := 2 ^ 38 - 1

/-- The `FlagBuilder` struct: six independent boolean capability bits.
The Rust field `private` is a Lean keyword, so the field is named `priv`
here; it models exactly the source's `private` bit. -/
structure FlagBuilder where
  read : Bool
  write : Bool
  execute : Bool
  cow : Bool
  priv : Bool
  shared : Bool
deriving DecidableEq

/-- FlagBuilder::new / Default: all flags off. -/
def FlagBuilder.new : FlagBuilder := ⟨false, false, false, false, false, false⟩

/-- FlagBuilder::read(): only the read flag set (the constructor function
of the source; named readFlag because `FlagBuilder.read` is the field
projection). -/
def readFlag : FlagBuilder := ⟨true, false, false, false, false, false⟩

/-- FlagBuilder::write(): only the write flag set. -/
def writeFlag : FlagBuilder := ⟨false, true, false, false, false, false⟩

/-- FlagBuilder::check_access_perms from the source:
`if access_perms.read && !self.read || access_perms.write && !self.write
|| access_perms.execute && !self.execute { return false; } true`. -/
def FlagBuilder.check_access_perms (self access_perms : FlagBuilder) : Bool :=
  if (access_perms.read && !self.read) || (access_perms.write && !self.write)
      || (access_perms.execute && !self.execute) then
    false
  else
    true

/-- The `MapEntry` struct.  `source` is the identity of the shared
`Arc<dyn DataSource>` handle. -/
structure MapEntry where
  source : Nat
  offset : Nat
  span : Nat
  addr : Nat
  flags : FlagBuilder
deriving DecidableEq

/-- The `AddressSpace` struct: a diagnostic name and the vector of
mappings. -/
structure AddressSpace where
  name : String
  mappings : List MapEntry
deriving DecidableEq

/-- AddressSpace::new: an empty, named address space. -/
def AddressSpace.new (name : String) : AddressSpace := ⟨name, []⟩

/-- Comparator used by the source's `sort_by(|a, b| a.addr.cmp(&b.addr))`. -/
def leAddr (x y : MapEntry) : Prop := x.addr ≤ y.addr

instance : DecidableRel leAddr := fun x y => Nat.decLe x.addr y.addr

/-- Model of `self.mappings.push(new_mapping)` followed by the stable
`self.mappings.sort_by(|a, b| a.addr.cmp(&b.addr))`: a stable sort of the
list with the new entry appended. -/
def sortByAddr (ms : List MapEntry) : List MapEntry :=
  List.insertionSort leAddr ms

/-- The page rounding step of `add_mapping`'s loop:
`if addr_iter % PAGE_SIZE != 0 { addr_iter = (addr_iter / PAGE_SIZE + 1) * PAGE_SIZE }`. -/
def roundUpPage (n : Nat) : Nat :=
  if n % PAGE_SIZE ≠ 0 then (n / PAGE_SIZE + 1) * PAGE_SIZE else n

/-- The scanning loop of `add_mapping`.  `gap = mapping.addr - addr_iter`
is a `usize` subtraction: when `mapping.addr < addr_iter` it underflows
and a debug build panics, modelled by `none`.  Otherwise the loop either
breaks (gap big enough) or advances the cursor to the page-rounded end of
the current mapping. -/
def findGap (span : Nat) : List MapEntry → Nat → Option Nat
  | [], addr_iter => some addr_iter
  | m :: rest, addr_iter =>
    if m.addr < addr_iter then
      none
    else if m.addr - addr_iter > span + 2 * PAGE_SIZE then
      some addr_iter
    else
      findGap span rest (roundUpPage (m.addr + m.span))

/-- AddressSpace::add_mapping.  Returns `none` when the scan panics;
otherwise the (possibly updated) state together with the `Result`. -/
def AddressSpace.add_mapping (a : AddressSpace) (source offset span : Nat)
    (flags : FlagBuilder) : Option (AddressSpace × Except String Nat) :=
  match findGap span a.mappings PAGE_SIZE with
  | none => none
  | some addr_iter =>
    if addr_iter + span + 2 * PAGE_SIZE < VADDR_MAX then
      let mapping_addr := addr_iter + PAGE_SIZE
      some (⟨a.name, sortByAddr (a.mappings ++ [⟨source, offset, span, mapping_addr, flags⟩])⟩,
            Except.ok mapping_addr)
    else
      some (a, Except.error "out of address space!")

/-- The scanning loop of `add_mapping_at`: `next_mapping` is set to each
mapping's address in turn, breaking at the first one strictly greater
than `start`; it stays at its previous value (initially 0) only in the
sense that the last visited address is kept when none is greater. -/
def findNextLoop (start : Nat) : List MapEntry → Nat → Nat
  | [], next_mapping => next_mapping
  | m :: rest, _ =>
    if m.addr > start then m.addr else findNextLoop start rest m.addr

/-- AddressSpace::add_mapping_at.  The source's error string quotes the
word start; the quotes are omitted here. -/
def AddressSpace.add_mapping_at (a : AddressSpace) (source offset span start : Nat)
    (flags : FlagBuilder) : AddressSpace × Except String Unit :=
  if start + span + 2 * PAGE_SIZE < findNextLoop start a.mappings 0 then
    (⟨a.name, sortByAddr (a.mappings ++ [⟨source, offset, span, start, flags⟩])⟩,
     Except.ok ())
  else
    (a, Except.error "Not enough space after start to map here.")

/-- The removal loop of `remove_mapping`: remove the first entry whose
address equals `start`; `none` when no entry matches. -/
def removeFirstAt (start : Nat) : List MapEntry → Option (List MapEntry)
  | [] => none
  | m :: rest =>
    if m.addr = start then some rest
    else (removeFirstAt start rest).map (fun l => m :: l)

/-- AddressSpace::remove_mapping.  The `source` argument is accepted but
never inspected, exactly as in the source. -/
def AddressSpace.remove_mapping (a : AddressSpace) (source start : Nat) :
    AddressSpace × Except String Unit :=
  match removeFirstAt start a.mappings with
  | some ms => (⟨a.name, ms⟩, Except.ok ())
  | none => (a, Except.error "no mapping found starting at that address.")

/-- The lookup loop of `get_source_for_addr`: return the first entry whose
address equals `addr` and whose flags authorise `access_type`; an entry at
`addr` with insufficient flags is skipped and the loop continues.  Falling
off the end of the loop reaches `todo!()`, i.e. a panic, modelled by
`none` (the function has no reachable `Err` return). -/
def getSourceLoop (addr : Nat) (access_type : FlagBuilder) :
    List MapEntry → Option (Nat × Nat)
  | [] => none
  | m :: rest =>
    if m.addr = addr then
      if m.flags.check_access_perms access_type then some (m.source, m.offset)
      else getSourceLoop addr access_type rest
    else getSourceLoop addr access_type rest

/-- AddressSpace::get_source_for_addr.  `some (s, o)` is the
`Ok((source.clone(), offset))` return; `none` is the `todo!()` panic. -/
def AddressSpace.get_source_for_addr (a : AddressSpace) (addr : Nat)
    (access_type : FlagBuilder) : Option (Nat × Nat) :=
  getSourceLoop addr access_type a.mappings

/-- A call through the public mutating interface of an address space. -/
inductive Op where
  | add (source offset span : Nat) (flags : FlagBuilder)
  | addAt (source offset span start : Nat) (flags : FlagBuilder)
  | remove (source start : Nat)
deriving DecidableEq

/-- Execute one public operation; a panicking `add_mapping` has no
successor state. -/
def stepOp (a : AddressSpace) : Op → Option AddressSpace
  | Op.add s o sp f => (a.add_mapping s o sp f).map (fun p => p.1)
  | Op.addAt s o sp st f => some (a.add_mapping_at s o sp st f).1
  | Op.remove s st => some (a.remove_mapping s st).1

/-- Execute a sequence of public operations. -/
def runOps (a : AddressSpace) : List Op → Option AddressSpace
  | [] => some a
  | op :: rest =>
    match stepOp a op with
    | some a2 => runOps a2 rest
    | none => none

/-- States reachable from a freshly created address space through the
public interface. -/
def Reachable (a : AddressSpace) : Prop :=
  ∃ name ops, runOps (AddressSpace.new name) ops = some a

/-- An argument tuple for one `add_mapping` call. -/
structure AddReq where
  source : Nat
  offset : Nat
  span : Nat
  flags : FlagBuilder
deriving DecidableEq

/-- Execute a sequence of `add_mapping` calls, requiring every call to
succeed (return `Ok`); anything else aborts the run. -/
def runAddsOk (a : AddressSpace) : List AddReq → Option AddressSpace
  | [] => some a
  | r :: rs =>
    match a.add_mapping r.source r.offset r.span r.flags with
    | some (a2, Except.ok _) => runAddsOk a2 rs
    | _ => none

/-- The guard-separation relation claimed by the spec: adjacent mappings
separated by at least two guard pages beyond the earlier mapping's span. -/
def guardGapSpec (p q : MapEntry) : Prop :=
  p.addr + p.span + 2 * PAGE_SIZE ≤ q.addr

/-- The guard-separation relation the allocator actually maintains:
adjacent mappings separated by at least one page beyond the earlier
mapping's span. -/
def guardGapPage (p q : MapEntry) : Prop :=
  p.addr + p.span + PAGE_SIZE ≤ q.addr

/-- Requested capability bits (read/write/execute) are a subset of the
granted ones. -/
def rwxSubset (req granted : FlagBuilder) : Prop :=
  (req.read = true → granted.read = true) ∧
  (req.write = true → granted.write = true) ∧
  (req.execute = true → granted.execute = true)

/-- The precondition under which `add_mapping`'s scan is panic-free:
every mapping reached by the loop has an address at least the cursor's
current value (mappings after an early break are never reached). -/
def scanOk (span : Nat) : List MapEntry → Nat → Prop
  | [], _ => True
  | m :: rest, c =>
    c ≤ m.addr ∧
      (span + 2 * PAGE_SIZE < m.addr - c ∨
        scanOk span rest (roundUpPage (m.addr + m.span)))

/-! Helper lemmas about the individual loops. -/

theorem roundUpPage_ge (n : Nat) : n ≤ roundUpPage n := by
  unfold roundUpPage PAGE_SIZE
  split <;> omega

theorem roundUpPage_lt (n : Nat) : roundUpPage n < n + PAGE_SIZE := by
  unfold roundUpPage PAGE_SIZE
  split <;> omega

/-- Stable insertion of an element appended at the end of a sorted list:
it lands after every element whose address is less than or equal to its
own. -/
def insertLast (x : MapEntry) : List MapEntry → List MapEntry
  | [] => [x]
  | b :: l => if b.addr ≤ x.addr then b :: insertLast x l else x :: b :: l

theorem sortByAddr_append_single (x : MapEntry) (ms : List MapEntry)
    (hs : ms.Sorted leAddr) : sortByAddr (ms ++ [x]) = insertLast x ms := by
  induction ms with
  | nil => rfl
  | cons a t ih =>
    rw [List.sorted_cons] at hs
    obtain ⟨ha, ht⟩ := hs
    show List.orderedInsert leAddr a (List.insertionSort leAddr (t ++ [x])) =
      insertLast x (a :: t)
    rw [show List.insertionSort leAddr (t ++ [x]) = insertLast x t from ih ht]
    by_cases hax : a.addr ≤ x.addr
    · rw [insertLast, if_pos hax]
      cases t with
      | nil =>
        show List.orderedInsert leAddr a [x] = a :: insertLast x []
        rw [List.orderedInsert, if_pos (show leAddr a x from hax)]
        rfl
      | cons b t2 =>
        have hab : leAddr a b := ha b (List.mem_cons_self b t2)
        rw [insertLast]
        by_cases hbx : b.addr ≤ x.addr
        · rw [if_pos hbx, List.orderedInsert, if_pos hab]
        · rw [if_neg hbx, List.orderedInsert, if_pos (show leAddr a x from hax)]
    · rw [insertLast, if_neg hax]
      have hxlt : x.addr < a.addr := Nat.lt_of_not_le hax
      have htx : insertLast x t = x :: t := by
        cases t with
        | nil => rfl
        | cons b t2 =>
          have hab : leAddr a b := ha b (List.mem_cons_self b t2)
          have hbx : ¬ b.addr ≤ x.addr := by
            unfold leAddr at hab
            omega
          rw [insertLast, if_neg hbx]
      rw [htx, List.orderedInsert, if_neg (show ¬ leAddr a x from hax)]
      have hat : List.orderedInsert leAddr a t = a :: t := by
        cases t with
        | nil => rfl
        | cons b t2 =>
          have hab : leAddr a b := ha b (List.mem_cons_self b t2)
          rw [List.orderedInsert, if_pos hab]
      rw [hat]

theorem insertLast_split (x : MapEntry) (l₁ l₂ : List MapEntry)
    (h1 : ∀ m ∈ l₁, m.addr ≤ x.addr)
    (h2 : ∀ m₂ ∈ l₂.head?, x.addr < m₂.addr) :
    insertLast x (l₁ ++ l₂) = l₁ ++ x :: l₂ := by
  induction l₁ with
  | nil =>
    cases l₂ with
    | nil => rfl
    | cons b t =>
      have hb : x.addr < b.addr := h2 b rfl
      show insertLast x (b :: t) = x :: b :: t
      rw [insertLast, if_neg (by omega)]
  | cons a t ih =>
    have hax : a.addr ≤ x.addr := h1 a (List.mem_cons_self a t)
    show insertLast x (a :: (t ++ l₂)) = a :: (t ++ x :: l₂)
    rw [insertLast, if_pos hax, ih (fun m hm => h1 m (List.mem_cons_of_mem a hm))]

theorem mem_insertLast (x y : MapEntry) (ms : List MapEntry) :
    y ∈ insertLast x ms ↔ y = x ∨ y ∈ ms := by
  induction ms with
  | nil => simp [insertLast]
  | cons b t ih =>
    rw [insertLast]
    split
    · rw [List.mem_cons, List.mem_cons, ih]
      tauto
    · simp only [List.mem_cons]

theorem mem_of_getLastQ {l : List MapEntry} {p : MapEntry}
    (h : l.getLast? = some p) : p ∈ l := by
  induction l with
  | nil => simp [List.getLast?] at h
  | cons a t ih =>
    cases t with
    | nil =>
      simp only [List.getLast?_singleton, Option.some.injEq] at h
      simp [h]
    | cons b t2 =>
      rw [List.getLast?_cons_cons] at h
      exact List.mem_cons_of_mem a (ih h)

/-- Splitting property of the `add_mapping` scan: when the loop finishes
without panicking, the list splits into the mappings the cursor walked
past (all ending at or before the final cursor) and the remaining
mappings, the first of which (if any) leaves a gap of more than
`span + 2 * PAGE_SIZE` after the cursor. -/
theorem findGap_split (span : Nat) (ms : List MapEntry) :
    ∀ c r, findGap span ms c = some r →
      ∃ l₁ l₂, ms = l₁ ++ l₂ ∧ c ≤ r ∧
        (∀ m ∈ l₁, m.addr + m.span ≤ r) ∧
        (∀ m₂ ∈ l₂.head?, r + span + 2 * PAGE_SIZE < m₂.addr) := by
  induction ms with
  | nil =>
    intro c r h
    rw [findGap] at h
    injection h with h
    subst h
    exact ⟨[], [], rfl, Nat.le_refl c, by simp, by simp⟩
  | cons m rest ih =>
    intro c r h
    rw [findGap] at h
    by_cases h1 : m.addr < c
    · rw [if_pos h1] at h
      exact absurd h (by simp)
    · rw [if_neg h1] at h
      by_cases h2 : m.addr - c > span + 2 * PAGE_SIZE
      · rw [if_pos h2] at h
        injection h with h
        subst h
        refine ⟨[], m :: rest, rfl, Nat.le_refl _, by simp, ?_⟩
        intro m₂ hm₂
        have hm : m = m₂ := by
          simpa using hm₂
        subst hm
        omega
      · rw [if_neg h2] at h
        obtain ⟨l₁, l₂, heq, hcr, hl₁, hl₂⟩ := ih (roundUpPage (m.addr + m.span)) r h
        have hrge : m.addr + m.span ≤ r :=
          Nat.le_trans (roundUpPage_ge (m.addr + m.span)) hcr
        refine ⟨m :: l₁, l₂, by rw [heq, List.cons_append], by omega, ?_, hl₂⟩
        intro m2 hm2
        rcases List.mem_cons.mp hm2 with hm2 | hm2
        · subst hm2
          exact hrge
        · exact hl₁ m2 hm2

instance : IsTrans MapEntry guardGapPage where
  trans := by
    intro p q t hpq hqt
    unfold guardGapPage at hpq hqt ⊢
    omega

theorem sorted_of_chain_guardGapPage {ms : List MapEntry}
    (h : List.Chain' guardGapPage ms) : ms.Sorted leAddr := by
  have hp : ms.Pairwise guardGapPage := List.chain'_iff_pairwise.mp h
  exact hp.imp (by
    intro p q hpq
    unfold guardGapPage at hpq
    unfold leAddr PAGE_SIZE at *
    omega)

theorem findGap_isSome_iff_scanOk (span : Nat) (ms : List MapEntry) :
    ∀ c, (findGap span ms c).isSome ↔ scanOk span ms c := by
  induction ms with
  | nil =>
    intro c
    simp [findGap, scanOk]
  | cons m rest ih =>
    intro c
    rw [findGap, scanOk]
    by_cases h1 : m.addr < c
    · rw [if_pos h1]
      simp only [Option.isSome_none, Bool.false_eq_true, false_iff]
      intro hcon
      omega
    · rw [if_neg h1]
      by_cases h2 : m.addr - c > span + 2 * PAGE_SIZE
      · rw [if_pos h2]
        simp only [Option.isSome_some, true_iff]
        exact ⟨by omega, Or.inl h2⟩
      · rw [if_neg h2]
        rw [ih (roundUpPage (m.addr + m.span))]
        constructor
        · intro hs
          exact ⟨by omega, Or.inr hs⟩
        · intro hs
          rcases hs with ⟨hc, hs | hs⟩
          · omega
          · exact hs

/-- The first stored mapping (in list order) whose address is strictly
greater than `start`: the mapping `add_mapping_at`'s space check is made
against. -/
def firstAbove (start : Nat) (ms : List MapEntry) : Option MapEntry :=
  ms.find? (fun m => decide (start < m.addr))

theorem findNextLoop_eq_of_firstAbove_some (start : Nat) (ms : List MapEntry) :
    ∀ acc m₂, firstAbove start ms = some m₂ → findNextLoop start ms acc = m₂.addr := by
  induction ms with
  | nil =>
    intro acc m₂ h
    simp [firstAbove] at h
  | cons m rest ih =>
    intro acc m₂ h
    rw [firstAbove, List.find?] at h
    rw [findNextLoop]
    by_cases hm : start < m.addr
    · rw [if_pos hm]
      rw [decide_eq_true hm] at h
      injection h with h
      rw [h]
    · rw [if_neg hm]
      rw [decide_eq_false hm] at h
      exact ih m.addr m₂ h

theorem findNextLoop_le_of_firstAbove_none (start : Nat) (ms : List MapEntry)
    (h : firstAbove start ms = none) :
    ∀ acc, acc ≤ start → findNextLoop start ms acc ≤ start := by
  induction ms with
  | nil =>
    intro acc hacc
    exact hacc
  | cons m rest ih =>
    intro acc hacc
    rw [firstAbove, List.find?] at h
    by_cases hm : start < m.addr
    · rw [decide_eq_true hm] at h
      exact absurd h (by simp)
    · rw [decide_eq_false hm] at h
      rw [findNextLoop, if_neg hm]
      exact ih h m.addr (Nat.le_of_not_lt hm)

theorem findNextLoop_mem_or_acc (start : Nat) (ms : List MapEntry) :
    ∀ acc, findNextLoop start ms acc = acc ∨ ∃ m ∈ ms, findNextLoop start ms acc = m.addr := by
  induction ms with
  | nil =>
    intro acc
    exact Or.inl rfl
  | cons m rest ih =>
    intro acc
    rw [findNextLoop]
    by_cases hm : start < m.addr
    · rw [if_pos hm]
      exact Or.inr ⟨m, List.mem_cons_self m rest, rfl⟩
    · rw [if_neg hm]
      rcases ih m.addr with h | ⟨m2, hm2, h⟩
      · exact Or.inr ⟨m, List.mem_cons_self m rest, h⟩
      · exact Or.inr ⟨m2, List.mem_cons_of_mem m hm2, h⟩

theorem removeFirstAt_eq_none_iff (start : Nat) (ms : List MapEntry) :
    removeFirstAt start ms = none ↔ ∀ m ∈ ms, m.addr ≠ start := by
  induction ms with
  | nil => simp [removeFirstAt]
  | cons m rest ih =>
    rw [removeFirstAt]
    by_cases hm : m.addr = start
    · rw [if_pos hm]
      simp only [List.mem_cons]
      constructor
      · intro h
        exact absurd h (by simp)
      · intro h
        exact absurd hm (h m (Or.inl rfl))
    · rw [if_neg hm]
      simp only [List.mem_cons]
      constructor
      · intro h m2 hm2
        rcases hm2 with hm2 | hm2
        · rw [hm2]
          exact hm
        · rcases Option.map_eq_none'.mp h with h2
          exact (ih.mp h2) m2 hm2
      · intro h
        rw [Option.map_eq_none']
        exact ih.mpr (fun m2 hm2 => h m2 (Or.inr hm2))

theorem removeFirstAt_eq_some (start : Nat) (ms : List MapEntry) :
    ∀ l, removeFirstAt start ms = some l →
      ∃ l₁ m l₂, ms = l₁ ++ m :: l₂ ∧ m.addr = start ∧
        (∀ m2 ∈ l₁, m2.addr ≠ start) ∧ l = l₁ ++ l₂ := by
  induction ms with
  | nil =>
    intro l h
    simp [removeFirstAt] at h
  | cons m rest ih =>
    intro l h
    rw [removeFirstAt] at h
    by_cases hm : m.addr = start
    · rw [if_pos hm] at h
      injection h with h
      exact ⟨[], m, rest, rfl, hm, by simp, h.symm⟩
    · rw [if_neg hm] at h
      rcases Option.map_eq_some'.mp h with ⟨l0, hl0, hl⟩
      obtain ⟨l₁, m2, l₂, heq, haddr, hnone, hrest⟩ := ih l0 hl0
      refine ⟨m :: l₁, m2, l₂, by rw [heq, List.cons_append], haddr, ?_, ?_⟩
      · intro m3 hm3
        rcases List.mem_cons.mp hm3 with hm3 | hm3
        · rw [hm3]
          exact hm
        · exact hnone m3 hm3
      · rw [← hl, hrest, List.cons_append]

theorem getSourceLoop_found (v : Nat) (req : FlagBuilder) (x : MapEntry)
    (l₁ l₂ : List MapEntry) (hne : ∀ m ∈ l₁, m.addr ≠ v) (hx : x.addr = v)
    (hperm : x.flags.check_access_perms req = true) :
    getSourceLoop v req (l₁ ++ x :: l₂) = some (x.source, x.offset) := by
  induction l₁ with
  | nil =>
    show getSourceLoop v req (x :: l₂) = some (x.source, x.offset)
    rw [getSourceLoop, if_pos hx, if_pos hperm]
  | cons b t ih =>
    show getSourceLoop v req (b :: (t ++ x :: l₂)) = some (x.source, x.offset)
    rw [getSourceLoop, if_neg (hne b (List.mem_cons_self b t))]
    exact ih (fun m hm => hne m (List.mem_cons_of_mem b hm))

theorem check_access_perms_eq_true_iff (g r : FlagBuilder) :
    g.check_access_perms r = true ↔ rwxSubset r g := by
  unfold FlagBuilder.check_access_perms rwxSubset
  rcases g with ⟨g1, g2, g3, g4, g5, g6⟩
  rcases r with ⟨r1, r2, r3, r4, r5, r6⟩
  simp only
  cases g1 <;> cases g2 <;> cases g3 <;> cases r1 <;> cases r2 <;> cases r3 <;> simp

/-! Claim theorems. -/

/-- C1 (code evaluated at the failing inputs): `get_source_for_addr`
reaches `todo!()` — a panic, modelled by `none` — instead of returning a
not-found error when no mapping starts at `addr` (first conjunct, empty
space), and likewise instead of returning a permission error when the
mapping at `addr` does not grant the requested access (second conjunct,
write access against a read-only mapping). -/
theorem c1_get_source_for_addr_panics :
    (AddressSpace.new "p0").get_source_for_addr (2 * PAGE_SIZE) readFlag = none ∧
    (AddressSpace.mk "p0" [⟨0, 0, 1, 2 * PAGE_SIZE, readFlag⟩]).get_source_for_addr
      (2 * PAGE_SIZE) writeFlag = none :=
  ⟨rfl, rfl⟩

/-- C2 (counterexample): on an empty address space there is no mapping
whose start address is greater than `start`, so the claim demands that
`add_mapping_at` succeed; the code instead returns an insufficient-space
error (and this is the very situation of a fresh address space). -/
theorem c2_counterexample :
    (AddressSpace.new "p0").add_mapping_at 7 0 0 PAGE_SIZE readFlag =
      (AddressSpace.new "p0", Except.error "Not enough space after start to map here.") ∧
    (AddressSpace.new "p0").mappings = [] :=
  ⟨rfl, rfl⟩

/-- C2 (amended): the space check is made only against the first stored
mapping whose start address is strictly greater than `start`.  When such
a mapping exists and `start + span + 2 * PAGE_SIZE` is strictly below its
start, the new mapping is inserted at exactly `start` (a stable sorted
insert) and the call succeeds; in every other case — the gap too small,
or no mapping above `start` at all, which includes the empty address
space and `start` at or beyond the last mapping — an insufficient-space
error is returned and the state is unchanged. -/
theorem c2_add_mapping_at_characterization (a : AddressSpace)
    (src off span start : Nat) (fl : FlagBuilder)
    (hs : a.mappings.Sorted leAddr) :
    (∀ m₂, firstAbove start a.mappings = some m₂ →
      (start + span + 2 * PAGE_SIZE < m₂.addr →
        a.add_mapping_at src off span start fl =
          (⟨a.name, insertLast ⟨src, off, span, start, fl⟩ a.mappings⟩, Except.ok ())) ∧
      (¬ start + span + 2 * PAGE_SIZE < m₂.addr →
        a.add_mapping_at src off span start fl =
          (a, Except.error "Not enough space after start to map here."))) ∧
    (firstAbove start a.mappings = none →
      a.add_mapping_at src off span start fl =
        (a, Except.error "Not enough space after start to map here.")) := by
  constructor
  · intro m₂ hfa
    have hnl := findNextLoop_eq_of_firstAbove_some start a.mappings 0 m₂ hfa
    constructor
    · intro hlt
      unfold AddressSpace.add_mapping_at
      rw [hnl, if_pos hlt, sortByAddr_append_single _ _ hs]
    · intro hge
      unfold AddressSpace.add_mapping_at
      rw [hnl, if_neg hge]
  · intro hfa
    have hle := findNextLoop_le_of_firstAbove_none start a.mappings hfa 0 (Nat.zero_le start)
    have hP : 0 < PAGE_SIZE := by decide
    unfold AddressSpace.add_mapping_at
    rw [if_neg (by omega)]

/-- C2 (witness): a concrete sorted state in which the amended statement
places a mapping at exactly the requested start address. -/
theorem c2_witness :
    (AddressSpace.mk "p0" [⟨1, 0, 0, 20480, readFlag⟩]).add_mapping_at 5 0 0 4096 readFlag =
      (⟨"p0", [⟨5, 0, 0, 4096, readFlag⟩, ⟨1, 0, 0, 20480, readFlag⟩]⟩, Except.ok ()) :=
  ((c2_add_mapping_at_characterization (AddressSpace.mk "p0" [⟨1, 0, 0, 20480, readFlag⟩])
    5 0 0 4096 readFlag (List.sorted_singleton _)).1 ⟨1, 0, 0, 20480, readFlag⟩ rfl).1
    (by decide)

/-- C6 (counterexample): on the empty address space named p0, the first
`add_mapping` of span 1 returns `2 * PAGE_SIZE` as claimed, but the
second `add_mapping` of span 0 returns `4 * PAGE_SIZE`, which is only
`2 * PAGE_SIZE` — strictly less than `3 * PAGE_SIZE` — above the first
returned address. -/
theorem c6_counterexample :
    (AddressSpace.new "p0").add_mapping 0 0 1 readFlag =
      some (⟨"p0", [⟨0, 0, 1, 2 * PAGE_SIZE, readFlag⟩]⟩, Except.ok (2 * PAGE_SIZE)) ∧
    (AddressSpace.mk "p0" [⟨0, 0, 1, 2 * PAGE_SIZE, readFlag⟩]).add_mapping 1 0 0 readFlag =
      some (⟨"p0", [⟨0, 0, 1, 2 * PAGE_SIZE, readFlag⟩, ⟨1, 0, 0, 4 * PAGE_SIZE, readFlag⟩]⟩,
        Except.ok (4 * PAGE_SIZE)) ∧
    4 * PAGE_SIZE < 2 * PAGE_SIZE + 3 * PAGE_SIZE :=
  ⟨rfl, rfl, by decide⟩

/-- C6 (amended): on the empty address space named p0 the first
`add_mapping(src, 0, 1, read)` returns exactly `2 * PAGE_SIZE`, and the
second `add_mapping(src2, 0, 0, read)` returns an address exactly
`2 * PAGE_SIZE` greater than the first (guard-page separation holds only
to that extent). -/
theorem c6_amended :
    (AddressSpace.new "p0").add_mapping 0 0 1 readFlag =
      some (⟨"p0", [⟨0, 0, 1, 2 * PAGE_SIZE, readFlag⟩]⟩, Except.ok (2 * PAGE_SIZE)) ∧
    (AddressSpace.mk "p0" [⟨0, 0, 1, 2 * PAGE_SIZE, readFlag⟩]).add_mapping 1 0 0 readFlag =
      some (⟨"p0", [⟨0, 0, 1, 2 * PAGE_SIZE, readFlag⟩, ⟨1, 0, 0, 4 * PAGE_SIZE, readFlag⟩]⟩,
        Except.ok (4 * PAGE_SIZE)) ∧
    4 * PAGE_SIZE = 2 * PAGE_SIZE + 2 * PAGE_SIZE :=
  ⟨rfl, rfl, by decide⟩

/-- C7: `check_access_perms(requested)` is true exactly when every
requested read/write/execute capability is also granted, and the cow,
private and shared bits of the requested flags are entirely ignored by
the check (replacing them by arbitrary values never changes the
outcome). -/
theorem c7_check_access_perms :
    (∀ g r : FlagBuilder, g.check_access_perms r = true ↔ rwxSubset r g) ∧
    (∀ g r : FlagBuilder, ∀ c p s : Bool,
      g.check_access_perms ⟨r.read, r.write, r.execute, c, p, s⟩ =
        g.check_access_perms r) :=
  ⟨check_access_perms_eq_true_iff, fun _ _ _ _ _ => rfl⟩

/-- C9: whenever `add_mapping` returns an error, the error is the
out-of-space error, the address space — name and full mapping list — is
exactly as before the call, and the error indeed arises because the
region found by the scan would not fit below the address ceiling. -/
theorem c9_add_mapping_failure_unchanged (a a2 : AddressSpace)
    (src off span : Nat) (fl : FlagBuilder) (e : String)
    (h : a.add_mapping src off span fl = some (a2, Except.error e)) :
    a2 = a ∧ e = "out of address space!" ∧
    ∀ r, findGap span a.mappings PAGE_SIZE = some r →
      VADDR_MAX ≤ r + span + 2 * PAGE_SIZE := by
  unfold AddressSpace.add_mapping at h
  cases hg : findGap span a.mappings PAGE_SIZE with
  | none =>
    rw [hg] at h
    exact absurd h (by simp)
  | some r0 =>
    rw [hg] at h
    dsimp only at h
    by_cases hlt : r0 + span + 2 * PAGE_SIZE < VADDR_MAX
    · rw [if_pos hlt] at h
      simp only [Option.some.injEq, Prod.mk.injEq] at h
      exact absurd h.2 (fun hcon => Except.noConfusion hcon)
    · rw [if_neg hlt] at h
      simp only [Option.some.injEq, Prod.mk.injEq] at h
      obtain ⟨ha, he⟩ := h
      injection he with he
      refine ⟨ha.symm, he.symm, ?_⟩
      intro r hr
      injection hr with hr
      subst hr
      omega

/-- C9 (witness): instantiating the failure theorem at a huge span on the
empty address space. -/
theorem c9_witness : VADDR_MAX ≤ PAGE_SIZE + VADDR_MAX + 2 * PAGE_SIZE :=
  (c9_add_mapping_failure_unchanged (AddressSpace.new "p0") (AddressSpace.new "p0")
    0 0 VADDR_MAX readFlag "out of address space!" rfl).2.2 PAGE_SIZE rfl

/-- C4: on a state whose mapping list is sorted by address (the
representation invariant the module re-establishes after every insert),
a successful `add_mapping` returning address `v` followed immediately by
`get_source_for_addr(v, req)` with read/write/execute bits of `req` a
subset of the granted flags succeeds and returns the very source handle
and offset passed to `add_mapping`. -/
theorem c4_add_then_lookup (a a2 : AddressSpace) (src off span v : Nat)
    (fl req : FlagBuilder)
    (hs : a.mappings.Sorted leAddr)
    (h : a.add_mapping src off span fl = some (a2, Except.ok v))
    (hreq : rwxSubset req fl) :
    a2.get_source_for_addr v req = some (src, off) := by
  unfold AddressSpace.add_mapping at h
  cases hg : findGap span a.mappings PAGE_SIZE with
  | none =>
    rw [hg] at h
    exact absurd h (by simp)
  | some r =>
    rw [hg] at h
    dsimp only at h
    by_cases hlt : r + span + 2 * PAGE_SIZE < VADDR_MAX
    · rw [if_pos hlt] at h
      simp only [Option.some.injEq, Prod.mk.injEq] at h
      obtain ⟨ha2, hv⟩ := h
      injection hv with hv
      subst hv
      subst ha2
      obtain ⟨l₁, l₂, heq, hcr, hl₁, hl₂⟩ := findGap_split span a.mappings PAGE_SIZE r hg
      have hP : 0 < PAGE_SIZE := by decide
      have hins : insertLast ⟨src, off, span, r + PAGE_SIZE, fl⟩ a.mappings =
          l₁ ++ ⟨src, off, span, r + PAGE_SIZE, fl⟩ :: l₂ := by
        rw [heq]
        apply insertLast_split
        · intro m hm
          have := hl₁ m hm
          show m.addr ≤ r + PAGE_SIZE
          omega
        · intro m₂ hm₂
          have := hl₂ m₂ hm₂
          show r + PAGE_SIZE < m₂.addr
          omega
      show getSourceLoop (r + PAGE_SIZE) req
        (sortByAddr (a.mappings ++ [⟨src, off, span, r + PAGE_SIZE, fl⟩])) = some (src, off)
      rw [sortByAddr_append_single _ _ hs, hins]
      refine getSourceLoop_found (r + PAGE_SIZE) req _ l₁ l₂ ?_ rfl
        ((check_access_perms_eq_true_iff fl req).mpr hreq)
      intro m hm
      have := hl₁ m hm
      omega
    · rw [if_neg hlt] at h
      simp only [Option.some.injEq, Prod.mk.injEq] at h
      exact absurd h.2 (fun hcon => Except.noConfusion hcon)

/-- C4 (witness): the first mapping of the concrete scenario looked up
immediately afterwards with the same read flag. -/
theorem c4_witness :
    (AddressSpace.mk "p0" [⟨0, 0, 1, 2 * PAGE_SIZE, readFlag⟩]).get_source_for_addr
      (2 * PAGE_SIZE) readFlag = some (0, 0) :=
  c4_add_then_lookup (AddressSpace.new "p0")
    ⟨"p0", [⟨0, 0, 1, 2 * PAGE_SIZE, readFlag⟩]⟩ 0 0 1 (2 * PAGE_SIZE) readFlag readFlag
    List.sorted_nil rfl ⟨fun h => h, fun h => h, fun h => h⟩

/-- Operation sequence reaching a state with a mapping on virtual page 0:
two allocator calls, removal of the first mapping, then a fixed-address
call at start 0, which `add_mapping_at` accepts because its space check
only looks at the first mapping above the requested start. -/
def opsPage0 : List Op := [Op.add 0 0 1 readFlag, Op.add 1 0 0 readFlag,
  Op.remove 9 (2 * PAGE_SIZE), Op.addAt 2 0 0 0 readFlag]

/-- C10: `add_mapping` is not total on reachable states: the state
reached by `opsPage0` holds a mapping at address 0, and `add_mapping` on
it panics (the `mapping.addr - addr_iter` subtraction underflows),
modelled by `none`; moreover `add_mapping` returns a value exactly when
the scan precondition `scanOk` holds, i.e. every mapping the loop
reaches has an address at least the cursor's current value. -/
theorem c10_add_mapping_totality :
    (runOps (AddressSpace.new "p0") opsPage0 =
        some ⟨"p0", [⟨2, 0, 0, 0, readFlag⟩, ⟨1, 0, 0, 4 * PAGE_SIZE, readFlag⟩]⟩ ∧
      (AddressSpace.mk "p0" [⟨2, 0, 0, 0, readFlag⟩,
        ⟨1, 0, 0, 4 * PAGE_SIZE, readFlag⟩]).add_mapping 3 0 0 readFlag = none) ∧
    (∀ (a : AddressSpace) (src off span : Nat) (fl : FlagBuilder),
      (a.add_mapping src off span fl).isSome ↔ scanOk span a.mappings PAGE_SIZE) := by
  refine ⟨⟨rfl, rfl⟩, ?_⟩
  intro a src off span fl
  rw [← findGap_isSome_iff_scanOk]
  unfold AddressSpace.add_mapping
  cases hg : findGap span a.mappings PAGE_SIZE with
  | none => simp
  | some r =>
    simp only [Option.isSome_some, iff_true]
    split <;> simp

instance : DecidableRel guardGapSpec := fun p q =>
  Nat.decLe (p.addr + p.span + 2 * PAGE_SIZE) q.addr

instance : DecidableRel guardGapPage := fun p q =>
  Nat.decLe (p.addr + p.span + PAGE_SIZE) q.addr

/-- One successful `add_mapping` call preserves the one-guard-page
separation chain on the stored (sorted) mapping list. -/
theorem add_mapping_ok_preserves_chain (a a2 : AddressSpace)
    (src off span v : Nat) (fl : FlagBuilder)
    (hc : List.Chain' guardGapPage a.mappings)
    (h : a.add_mapping src off span fl = some (a2, Except.ok v)) :
    List.Chain' guardGapPage a2.mappings := by
  unfold AddressSpace.add_mapping at h
  cases hg : findGap span a.mappings PAGE_SIZE with
  | none =>
    rw [hg] at h
    exact absurd h (by simp)
  | some r =>
    rw [hg] at h
    dsimp only at h
    by_cases hlt : r + span + 2 * PAGE_SIZE < VADDR_MAX
    · rw [if_pos hlt] at h
      simp only [Option.some.injEq, Prod.mk.injEq] at h
      obtain ⟨ha2, _⟩ := h
      obtain ⟨l₁, l₂, heq, hcr, hl₁, hl₂⟩ := findGap_split span a.mappings PAGE_SIZE r hg
      have hs := sorted_of_chain_guardGapPage hc
      have hP : 0 < PAGE_SIZE := by decide
      have hins : insertLast ⟨src, off, span, r + PAGE_SIZE, fl⟩ a.mappings =
          l₁ ++ ⟨src, off, span, r + PAGE_SIZE, fl⟩ :: l₂ := by
        rw [heq]
        apply insertLast_split
        · intro m hm
          have := hl₁ m hm
          show m.addr ≤ r + PAGE_SIZE
          omega
        · intro m₂ hm₂
          have := hl₂ m₂ hm₂
          show r + PAGE_SIZE < m₂.addr
          omega
      rw [← ha2]
      show List.Chain' guardGapPage
        (sortByAddr (a.mappings ++ [⟨src, off, span, r + PAGE_SIZE, fl⟩]))
      rw [sortByAddr_append_single _ _ hs, hins]
      rw [heq] at hc
      rw [List.chain'_append] at hc ⊢
      obtain ⟨hc1, hc2, _⟩ := hc
      refine ⟨hc1, ?_, ?_⟩
      · rw [List.chain'_cons']
        refine ⟨?_, hc2⟩
        intro y hy
        have := hl₂ y hy
        show r + PAGE_SIZE + span + PAGE_SIZE ≤ y.addr
        omega
      · intro p hp y hy
        have hyx : (⟨src, off, span, r + PAGE_SIZE, fl⟩ : MapEntry) = y := by
          simpa using hy
        have hpl : p ∈ l₁ := mem_of_getLastQ (Option.mem_def.mp hp)
        have := hl₁ p hpl
        rw [← hyx]
        show p.addr + p.span + PAGE_SIZE ≤ r + PAGE_SIZE
        omega
    · rw [if_neg hlt] at h
      simp only [Option.some.injEq, Prod.mk.injEq] at h
      exact absurd h.2 (fun hcon => Except.noConfusion hcon)

theorem runAddsOk_chain (reqs : List AddReq) :
    ∀ a s : AddressSpace, List.Chain' guardGapPage a.mappings →
      runAddsOk a reqs = some s → List.Chain' guardGapPage s.mappings := by
  induction reqs with
  | nil =>
    intro a s hc h
    rw [runAddsOk] at h
    injection h with h
    rw [← h]
    exact hc
  | cons r rs ih =>
    intro a s hc h
    rw [runAddsOk] at h
    cases hm : a.add_mapping r.source r.offset r.span r.flags with
    | none =>
      rw [hm] at h
      exact absurd h (by simp)
    | some p =>
      rw [hm] at h
      obtain ⟨a2, res⟩ := p
      cases res with
      | ok v =>
        exact ih a2 s
          (add_mapping_ok_preserves_chain a a2 r.source r.offset r.span v r.flags hc hm) h
      | error e => exact absurd h (by simp)

/-- C3 (counterexample): two successful `add_mapping` calls from the
empty address space produce adjacent mappings at `2 * PAGE_SIZE` (span 1)
and `4 * PAGE_SIZE`, whose separation `2 * PAGE_SIZE - 1` falls short of
the claimed `2 * PAGE_SIZE`. -/
theorem c3_counterexample :
    runAddsOk (AddressSpace.new "p0") [⟨0, 0, 1, readFlag⟩, ⟨1, 0, 0, readFlag⟩] =
      some ⟨"p0", [⟨0, 0, 1, 2 * PAGE_SIZE, readFlag⟩, ⟨1, 0, 0, 4 * PAGE_SIZE, readFlag⟩]⟩ ∧
    ¬ List.Chain' guardGapSpec
      [⟨0, 0, 1, 2 * PAGE_SIZE, readFlag⟩, ⟨1, 0, 0, 4 * PAGE_SIZE, readFlag⟩] := by
  refine ⟨rfl, ?_⟩
  intro hcon
  exact absurd (List.chain'_cons.mp hcon).1 (by decide)

/-- C3 (amended): after any sequence of successful `add_mapping` calls
from an empty address space, the stored mapping list (which the module
keeps sorted by ascending address) satisfies
`next.addr - (prev.addr + prev.span) >= PAGE_SIZE` for every adjacent
pair: one guard page is guaranteed between neighbours, not the claimed
two. -/
theorem c3_guard_gap_invariant (name : String) (reqs : List AddReq)
    (s : AddressSpace) (h : runAddsOk (AddressSpace.new name) reqs = some s) :
    List.Chain' guardGapPage s.mappings :=
  runAddsOk_chain reqs (AddressSpace.new name) s List.chain'_nil h

/-- C3 (witness): the invariant evaluated on the two-call scenario. -/
theorem c3_witness :
    List.Chain' guardGapPage
      [⟨0, 0, 1, 2 * PAGE_SIZE, readFlag⟩, ⟨1, 0, 0, 4 * PAGE_SIZE, readFlag⟩] :=
  c3_guard_gap_invariant "p0" [⟨0, 0, 1, readFlag⟩, ⟨1, 0, 0, readFlag⟩]
    ⟨"p0", [⟨0, 0, 1, 2 * PAGE_SIZE, readFlag⟩, ⟨1, 0, 0, 4 * PAGE_SIZE, readFlag⟩]⟩ rfl

/-- The part of the claimed state invariant that the code does maintain:
no stored mapping extends past the maximum virtual address. -/
def SpanInv (ms : List MapEntry) : Prop :=
  ∀ m ∈ ms, m.addr + m.span ≤ VADDR_MAX

theorem removeFirstAt_subset (start : Nat) (ms : List MapEntry) (l : List MapEntry)
    (h : removeFirstAt start ms = some l) : ∀ m ∈ l, m ∈ ms := by
  obtain ⟨l₁, m0, l₂, heq, _, _, hl⟩ := removeFirstAt_eq_some start ms l h
  intro m hm
  rw [heq]
  rw [hl] at hm
  rcases List.mem_append.mp hm with hm | hm
  · exact List.mem_append.mpr (Or.inl hm)
  · exact List.mem_append.mpr (Or.inr (List.mem_cons_of_mem m0 hm))

theorem mem_sortByAddr_append (x m : MapEntry) (ms : List MapEntry)
    (h : m ∈ sortByAddr (ms ++ [x])) : m ∈ ms ∨ m = x := by
  have hperm := List.perm_insertionSort leAddr (ms ++ [x])
  have hmem : m ∈ ms ++ [x] := hperm.mem_iff.mp h
  rcases List.mem_append.mp hmem with hm | hm
  · exact Or.inl hm
  · exact Or.inr (by simpa using hm)

theorem stepOp_preserves_spanInv (a a2 : AddressSpace) (op : Op)
    (hi : SpanInv a.mappings) (h : stepOp a op = some a2) : SpanInv a2.mappings := by
  cases op with
  | add src off span fl =>
    rw [stepOp] at h
    cases hm : a.add_mapping src off span fl with
    | none =>
      rw [hm] at h
      exact absurd h (by simp)
    | some p =>
      rw [hm] at h
      obtain ⟨a3, res⟩ := p
      simp only [Option.map_some', Option.some.injEq] at h
      unfold AddressSpace.add_mapping at hm
      cases hg : findGap span a.mappings PAGE_SIZE with
      | none =>
        rw [hg] at hm
        exact absurd hm (by simp)
      | some r =>
        rw [hg] at hm
        dsimp only at hm
        by_cases hlt : r + span + 2 * PAGE_SIZE < VADDR_MAX
        · rw [if_pos hlt] at hm
          simp only [Option.some.injEq, Prod.mk.injEq] at hm
          obtain ⟨ha3, _⟩ := hm
          rw [← h, ← ha3]
          intro m hm2
          rcases mem_sortByAddr_append _ m _ hm2 with hm3 | hm3
          · exact hi m hm3
          · rw [hm3]
            show r + PAGE_SIZE + span ≤ VADDR_MAX
            have hP : 0 < PAGE_SIZE := by decide
            omega
        · rw [if_neg hlt] at hm
          simp only [Option.some.injEq, Prod.mk.injEq] at hm
          rw [← h, ← hm.1]
          exact hi
  | addAt src off span st fl =>
    rw [stepOp] at h
    injection h with h
    unfold AddressSpace.add_mapping_at at h
    by_cases hlt : st + span + 2 * PAGE_SIZE < findNextLoop st a.mappings 0
    · rw [if_pos hlt] at h
      rcases findNextLoop_mem_or_acc st a.mappings 0 with hn | ⟨m0, hm0, hn⟩
      · rw [hn] at hlt
        exact absurd hlt (by omega)
      · rw [hn] at hlt
        have hm0b := hi m0 hm0
        rw [← h]
        intro m hm2
        rcases mem_sortByAddr_append _ m _ hm2 with hm3 | hm3
        · exact hi m hm3
        · rw [hm3]
          show st + span ≤ VADDR_MAX
          omega
    · rw [if_neg hlt] at h
      rw [← h]
      exact hi
  | remove src st =>
    rw [stepOp] at h
    injection h with h
    unfold AddressSpace.remove_mapping at h
    cases hr : removeFirstAt st a.mappings with
    | none =>
      rw [hr] at h
      rw [← h]
      exact hi
    | some l =>
      rw [hr] at h
      rw [← h]
      intro m hm2
      exact hi m (removeFirstAt_subset st a.mappings l hr m hm2)

theorem runOps_spanInv (ops : List Op) :
    ∀ a s : AddressSpace, SpanInv a.mappings → runOps a ops = some s →
      SpanInv s.mappings := by
  induction ops with
  | nil =>
    intro a s hi h
    rw [runOps] at h
    injection h with h
    rw [← h]
    exact hi
  | cons op rest ih =>
    intro a s hi h
    rw [runOps] at h
    cases hstep : stepOp a op with
    | none =>
      rw [hstep] at h
      exact absurd h (by simp)
    | some a2 =>
      rw [hstep] at h
      exact ih a2 s (stepOp_preserves_spanInv a a2 op hi hstep) h

/-- C5 (counterexample): the state reached by `opsPage0` — two allocator
calls, a removal, then a fixed-address call at start 0 — contains a
mapping whose start address is 0, so virtual page 0 can be occupied in a
reachable state, contradicting the claimed invariant. -/
theorem c5_counterexample :
    runOps (AddressSpace.new "p0") opsPage0 =
      some ⟨"p0", [⟨2, 0, 0, 0, readFlag⟩, ⟨1, 0, 0, 4 * PAGE_SIZE, readFlag⟩]⟩ ∧
    (⟨2, 0, 0, 0, readFlag⟩ : MapEntry) ∈
      [⟨2, 0, 0, 0, readFlag⟩, ⟨1, 0, 0, 4 * PAGE_SIZE, readFlag⟩] ∧
    (⟨2, 0, 0, 0, readFlag⟩ : MapEntry).addr = 0 :=
  ⟨rfl, List.mem_cons_self _ _, rfl⟩

/-- C5 (amended): in every state reachable from a fresh address space
through the public operations, every stored mapping satisfies
`addr + span <= VADDR_MAX`; the other half of the claimed invariant,
`addr != 0`, does not hold (see the counterexample). -/
theorem c5_reachable_vaddr_bound (a : AddressSpace) (h : Reachable a) :
    ∀ m ∈ a.mappings, m.addr + m.span ≤ VADDR_MAX := by
  obtain ⟨name, ops, hrun⟩ := h
  exact runOps_spanInv ops (AddressSpace.new name) a
    (fun m hm => absurd hm (List.not_mem_nil m)) hrun

/-- C5 (witness): the bound evaluated on a concrete reachable state with
one mapping. -/
theorem c5_witness :
    (⟨0, 0, 1, 2 * PAGE_SIZE, readFlag⟩ : MapEntry).addr +
      (⟨0, 0, 1, 2 * PAGE_SIZE, readFlag⟩ : MapEntry).span ≤ VADDR_MAX :=
  c5_reachable_vaddr_bound ⟨"p0", [⟨0, 0, 1, 2 * PAGE_SIZE, readFlag⟩]⟩
    ⟨"p0", [Op.add 0 0 1 readFlag], rfl⟩ _ (List.mem_cons_self _ _)

theorem remove_mapping_none_case (a : AddressSpace) (src start : Nat)
    (h : removeFirstAt start a.mappings = none) :
    a.remove_mapping src start =
      (a, Except.error "no mapping found starting at that address.") := by
  unfold AddressSpace.remove_mapping
  rw [h]

theorem remove_mapping_some_case (a : AddressSpace) (src start : Nat)
    (l : List MapEntry) (h : removeFirstAt start a.mappings = some l) :
    a.remove_mapping src start = (⟨a.name, l⟩, Except.ok ()) := by
  unfold AddressSpace.remove_mapping
  rw [h]

/-- C8 (amended): `remove_mapping` ignores its `source` argument
entirely; it succeeds exactly when some stored mapping starts at `start`,
in which case it removes the first such mapping (keeping everything
before and after it, and the name); on failure the state is unchanged and
the error is the not-found error.  The claim's second-removal clause
holds under the additional hypothesis that stored start addresses are
pairwise distinct — with duplicated start addresses (which are reachable)
a second removal at the same address succeeds instead. -/
theorem c8_remove_mapping_characterization (a : AddressSpace)
    (src1 src2 start : Nat) :
    a.remove_mapping src1 start = a.remove_mapping src2 start ∧
    ((a.remove_mapping src1 start).2 = Except.ok () ↔
      ∃ m ∈ a.mappings, m.addr = start) ∧
    (∀ e, (a.remove_mapping src1 start).2 = Except.error e →
      (a.remove_mapping src1 start).1 = a ∧
        e = "no mapping found starting at that address.") ∧
    (∀ a2, a.remove_mapping src1 start = (a2, Except.ok ()) →
      a2.name = a.name ∧ ∃ l₁ m l₂, a.mappings = l₁ ++ m :: l₂ ∧ m.addr = start ∧
        (∀ m2 ∈ l₁, m2.addr ≠ start) ∧ a2.mappings = l₁ ++ l₂) ∧
    ((a.mappings.map MapEntry.addr).Nodup →
      ∀ a2, a.remove_mapping src1 start = (a2, Except.ok ()) →
        (a2.remove_mapping src2 start).2 =
          Except.error "no mapping found starting at that address.") := by
  cases hr : removeFirstAt start a.mappings with
  | none =>
    have hre := remove_mapping_none_case a src1 start hr
    have hnone := (removeFirstAt_eq_none_iff start a.mappings).mp hr
    refine ⟨by rw [hre, remove_mapping_none_case a src2 start hr], ?_, ?_, ?_, ?_⟩
    · rw [hre]
      constructor
      · intro hcon
        exact absurd hcon (by simp)
      · intro hcon
        obtain ⟨m, hm, hma⟩ := hcon
        exact absurd hma (hnone m hm)
    · intro e he
      rw [hre] at he ⊢
      injection he with he
      exact ⟨rfl, he.symm⟩
    · intro a2 h2
      rw [hre] at h2
      simp only [Prod.mk.injEq] at h2
      exact absurd h2.2 (fun hcon => Except.noConfusion hcon)
    · intro _ a2 h2
      rw [hre] at h2
      simp only [Prod.mk.injEq] at h2
      exact absurd h2.2 (fun hcon => Except.noConfusion hcon)
  | some l =>
    have hre := remove_mapping_some_case a src1 start l hr
    obtain ⟨l₁, m0, l₂, heq, hm0, hl₁, hl⟩ := removeFirstAt_eq_some start a.mappings l hr
    refine ⟨by rw [hre, remove_mapping_some_case a src2 start l hr], ?_, ?_, ?_, ?_⟩
    · rw [hre]
      constructor
      · intro _
        exact ⟨m0, by rw [heq]; exact List.mem_append.mpr (Or.inr (List.mem_cons_self m0 l₂)), hm0⟩
      · intro _
        rfl
    · intro e he
      rw [hre] at he
      exact absurd he (fun hcon => Except.noConfusion hcon)
    · intro a2 h2
      rw [hre] at h2
      simp only [Prod.mk.injEq] at h2
      obtain ⟨ha2, _⟩ := h2
      rw [← ha2]
      exact ⟨rfl, l₁, m0, l₂, heq, hm0, hl₁, hl⟩
    · intro hnd a2 h2
      rw [hre] at h2
      simp only [Prod.mk.injEq] at h2
      obtain ⟨ha2, _⟩ := h2
      rw [heq] at hnd
      have hmaps : (List.map MapEntry.addr (l₁ ++ m0 :: l₂)) =
          List.map MapEntry.addr l₁ ++ m0.addr :: List.map MapEntry.addr l₂ := by
        rw [List.map_append, List.map_cons]
      rw [hmaps] at hnd
      have hnd2 : (m0.addr :: List.map MapEntry.addr l₂).Nodup :=
        List.Nodup.of_append_right hnd
      have hnotin : m0.addr ∉ List.map MapEntry.addr l₂ := (List.nodup_cons.mp hnd2).1
      have hall : ∀ m2 ∈ l₁ ++ l₂, m2.addr ≠ start := by
        intro m2 hm2
        rcases List.mem_append.mp hm2 with hm2 | hm2
        · exact hl₁ m2 hm2
        · intro hcon
          exact hnotin (by
            rw [hm0, ← hcon]
            exact List.mem_map_of_mem MapEntry.addr hm2)
      have hrnone : removeFirstAt start a2.mappings = none := by
        rw [← ha2, hl]
        exact (removeFirstAt_eq_none_iff start (l₁ ++ l₂)).mpr hall
      rw [remove_mapping_none_case a2 src2 start hrnone]

/-- C8 (witness): a one-mapping state with distinct addresses: removing
it succeeds and a second removal at the same address reports not-found. -/
theorem c8_witness :
    ((AddressSpace.mk "p0" []).remove_mapping 3 (2 * PAGE_SIZE)).2 =
      Except.error "no mapping found starting at that address." :=
  (c8_remove_mapping_characterization
    (AddressSpace.mk "p0" [⟨0, 0, 1, 2 * PAGE_SIZE, readFlag⟩]) 2 3
    (2 * PAGE_SIZE)).2.2.2.2 (by decide) ⟨"p0", []⟩ rfl

/-- Operation sequence reaching a state in which two stored mappings
share the start address `2 * PAGE_SIZE`: three allocator calls, removal
of the middle mapping, then a fixed-address call at an already-occupied
start, which `add_mapping_at` accepts because it only checks the first
mapping strictly above the requested start. -/
def opsDup : List Op := [Op.add 0 0 1 readFlag, Op.add 1 0 0 readFlag,
  Op.add 2 0 0 readFlag, Op.remove 9 (4 * PAGE_SIZE), Op.addAt 3 7 0 (2 * PAGE_SIZE) readFlag]

/-- C8 (counterexample): in the reachable state produced by `opsDup`,
two mappings start at `2 * PAGE_SIZE`; removing at that address succeeds
and a second `remove_mapping` at the same, freshly removed address
succeeds again instead of failing with not-found. -/
theorem c8_counterexample :
    runOps (AddressSpace.new "p0") opsDup =
      some ⟨"p0", [⟨0, 0, 1, 2 * PAGE_SIZE, readFlag⟩, ⟨3, 7, 0, 2 * PAGE_SIZE, readFlag⟩,
        ⟨2, 0, 0, 5 * PAGE_SIZE, readFlag⟩]⟩ ∧
    (AddressSpace.mk "p0" [⟨0, 0, 1, 2 * PAGE_SIZE, readFlag⟩,
        ⟨3, 7, 0, 2 * PAGE_SIZE, readFlag⟩,
        ⟨2, 0, 0, 5 * PAGE_SIZE, readFlag⟩]).remove_mapping 4 (2 * PAGE_SIZE) =
      (⟨"p0", [⟨3, 7, 0, 2 * PAGE_SIZE, readFlag⟩, ⟨2, 0, 0, 5 * PAGE_SIZE, readFlag⟩]⟩,
        Except.ok ()) ∧
    (AddressSpace.mk "p0" [⟨3, 7, 0, 2 * PAGE_SIZE, readFlag⟩,
        ⟨2, 0, 0, 5 * PAGE_SIZE, readFlag⟩]).remove_mapping 5 (2 * PAGE_SIZE) =
      (⟨"p0", [⟨2, 0, 0, 5 * PAGE_SIZE, readFlag⟩]⟩, Except.ok ()) :=
  ⟨rfl, rfl, rfl⟩
